import Mathlib

/-!
Verification of the LivePulse event-processing core: a shallow embedding of
the milestone tracker, the session-statistics aggregator, the bounded event
queue and the worker pool, with theorems settling the specified behaviour.
-/

namespace LivePulse

/-! ## Milestones (`internal/milestones`) -/

/-- Abstract timestamps: the code stores `time.Time` values; only their
presence matters for the properties here, so we use `Nat` ticks. -/
abbrev Time := Nat

/-- The milestone record.  `threshold` and `progress` are Go `int64`; the
properties proved here do not involve 64-bit overflow (no arithmetic is
performed on them beyond comparison), so they are embedded as `Int`. -/
structure Milestone where
  threshold : Int
  progress : Int
  achieved : Bool
  achievedAt : Option Time
  deriving Repr, DecidableEq

/-- `NewMilestone`: progress 0, not achieved, no achievement time. -/
def NewMilestone (threshold : Int) : Milestone :=
  { threshold := threshold, progress := 0, achieved := false, achievedAt := none }

/-- `Milestone.UpdateProgress`: sets `Progress = currentValue`; if not yet
achieved and `currentValue ≥ Threshold`, marks achieved, stamps the time
and returns true; otherwise returns false.  `now` stands for
`time.Now().UTC()`. -/
def Milestone.UpdateProgress (m : Milestone) (currentValue : Int) (now : Time) :
    Milestone × Bool :=
  let m := { m with progress := currentValue }
  if !m.achieved && currentValue ≥ m.threshold then
    ({ m with achieved := true, achievedAt := some now }, true)
  else
    (m, false)

/-- Run a sequence of `UpdateProgress` calls, returning the final milestone
and the list of boolean results in call order.  The timestamps fed to the
calls are `0, 1, 2, …`. -/
def runUpdates (m : Milestone) (vs : List Int) : Milestone × List Bool :=
  match vs with
  | [] => (m, [])
  | v :: rest =>
      let (m', r) := m.UpdateProgress v 0
      let (mfin, rs) := runUpdates m' rest
      (mfin, r :: rs)

/-- `Milestone.ProgressPercentage`, embedded over `ℚ` (the code computes in
`float64`; the sign and clamping facts proved here are exact in both
semantics).  Returns 0 when the threshold is 0, else
`progress / threshold * 100` clamped above at 100. -/
def Milestone.ProgressPercentage (m : Milestone) : ℚ :=
  if m.threshold = 0 then 0
  else
    let percentage : ℚ := ((m.progress : ℚ) / (m.threshold : ℚ)) * 100
    if percentage > 100 then 100 else percentage

/-! ### Milestone lemmas -/

lemma UpdateProgress_threshold (m : Milestone) (v : Int) (t : Time) :
    ((m.UpdateProgress v t).1).threshold = m.threshold := by
  unfold Milestone.UpdateProgress
  dsimp only
  split <;> rfl

lemma UpdateProgress_of_achieved (m : Milestone) (v : Int) (t : Time)
    (h : m.achieved = true) :
    (m.UpdateProgress v t).2 = false ∧ ((m.UpdateProgress v t).1).achieved = true := by
  unfold Milestone.UpdateProgress
  simp [h]

lemma UpdateProgress_of_not_achieved (m : Milestone) (v : Int) (t : Time)
    (h : m.achieved = false) :
    (m.UpdateProgress v t).2 = decide (m.threshold ≤ v) ∧
    ((m.UpdateProgress v t).1).achieved = decide (m.threshold ≤ v) := by
  unfold Milestone.UpdateProgress
  by_cases hv : m.threshold ≤ v <;> simp [h, hv]

lemma runUpdates_length (m : Milestone) (vs : List Int) :
    ((runUpdates m vs).2).length = vs.length := by
  induction vs generalizing m with
  | nil => rfl
  | cons v rest ih =>
      unfold runUpdates
      simp [ih]

lemma runUpdates_all_false_of_achieved (m : Milestone) (vs : List Int)
    (h : m.achieved = true) :
    ∀ r ∈ (runUpdates m vs).2, r = false := by
  induction vs generalizing m with
  | nil => intro r hr; simp [runUpdates] at hr
  | cons v rest ih =>
      intro r hr
      unfold runUpdates at hr
      simp only [List.mem_cons] at hr
      rcases hr with hr | hr
      · subst hr; exact (UpdateProgress_of_achieved m v 0 h).1
      · exact ih _ ((UpdateProgress_of_achieved m v 0 h).2) r hr

lemma runUpdates_get_iff (m : Milestone) (vs : List Int)
    (h : m.achieved = false) (i : Nat) (hi : i < vs.length) :
    ((runUpdates m vs).2)[i]? = some true ↔
      (m.threshold ≤ vs.get ⟨i, hi⟩ ∧
        ∀ j, (hj : j < i) → vs.get ⟨j, hj.trans hi⟩ < m.threshold) := by
  induction vs generalizing m i with
  | nil => exact absurd hi (by simp)
  | cons v rest ih =>
      unfold runUpdates
      rcases hup : m.UpdateProgress v 0 with ⟨m', r⟩
      have hthr : m'.threshold = m.threshold := by
        have := UpdateProgress_threshold m v 0
        rw [hup] at this; exact this
      have hr : r = decide (m.threshold ≤ v) := by
        have := (UpdateProgress_of_not_achieved m v 0 h).1
        rw [hup] at this; exact this
      have hach : m'.achieved = decide (m.threshold ≤ v) := by
        have := (UpdateProgress_of_not_achieved m v 0 h).2
        rw [hup] at this; exact this
      cases i with
      | zero =>
          simp only [List.getElem?_cons_zero, Option.some.injEq, List.get]
          constructor
          · intro hr0
            refine ⟨?_, by omega⟩
            rw [hr0] at hr
            exact of_decide_eq_true hr.symm
          · intro ⟨hle, _⟩
            rw [hr, decide_eq_true hle]
      | succ k =>
          have hk : k < rest.length := by simpa using hi
          simp only [List.getElem?_cons_succ]
          by_cases hle : m.threshold ≤ v
          · -- the head already achieves: all later results are false
            have : m'.achieved = true := by rw [hach, decide_eq_true hle]
            constructor
            · intro habs
              have hmem : true ∈ (runUpdates m' rest).2 := by
                have := List.getElem?_mem habs
                exact this
              exact absurd (runUpdates_all_false_of_achieved m' rest this _ hmem)
                (by simp)
            · intro ⟨_, hall⟩
              exact absurd (hall 0 (Nat.succ_pos k)) (by simp [hle])
          · -- the head does not achieve: recurse
            have hach' : m'.achieved = false := by
              rw [hach, decide_eq_false hle]
            rw [ih m' hach' k hk, hthr]
            constructor
            · intro ⟨hget, hall⟩
              refine ⟨hget, ?_⟩
              intro j hj
              cases j with
              | zero => simpa using lt_of_not_ge hle
              | succ jj => exact hall jj (by omega)
            · intro ⟨hget, hall⟩
              exact ⟨hget, fun j hj => hall (j + 1) (by omega)⟩

/-- C1: over a milestone's lifetime, `UpdateProgress` returns true exactly
once.  Starting from a fresh milestone with threshold `T` and feeding any
sequence of values, the i-th call returns true iff its value reaches `T`
and no earlier value did; and once achieved, every later call returns
false and the achieved flag never reverts. -/
theorem updateProgress_true_exactly_once (T : Int) (vs : List Int) :
    (∀ i, (hi : i < vs.length) →
      (((runUpdates (NewMilestone T) vs).2)[i]? = some true ↔
        (T ≤ vs.get ⟨i, hi⟩ ∧
          ∀ j, (hj : j < i) → vs.get ⟨j, hj.trans hi⟩ < T))) ∧
    (∀ (m : Milestone) (v : Int) (t : Time), m.achieved = true →
      (m.UpdateProgress v t).2 = false ∧ ((m.UpdateProgress v t).1).achieved = true) := by
  constructor
  · intro i hi
    exact runUpdates_get_iff (NewMilestone T) vs rfl i hi
  · intro m v t h
    exact UpdateProgress_of_achieved m v t h

/-- Witness for C1: with threshold 2 and values `[0, 1, 2, 3]`, the third
call (index 2) returns true, and an already-achieved milestone's update
returns false. -/
theorem updateProgress_true_exactly_once_witness :
    ((runUpdates (NewMilestone 2) [0, 1, 2, 3]).2)[2]? = some true ∧
    (({ threshold := 2, progress := 2, achieved := true,
        achievedAt := some 0 } : Milestone).UpdateProgress 3 1).2 = false := by
  refine ⟨?_, ?_⟩
  · exact ((updateProgress_true_exactly_once 2 [0, 1, 2, 3]).1 2 (by decide)).mpr
      (by refine ⟨by decide, ?_⟩
          intro j hj
          simp only [List.get_eq_getElem]
          interval_cases j <;> simp)
  · exact ((updateProgress_true_exactly_once 2 [0, 1, 2, 3]).2 _ 3 1 rfl).1

/-- C6 counterexample: a milestone with threshold 1 and progress −1 (the
code never clamps below) yields a percentage of −100, outside `[0, 100]`. -/
theorem progressPercentage_negative_counterexample :
    ({ threshold := 1, progress := -1, achieved := false,
       achievedAt := none } : Milestone).ProgressPercentage < 0 := by
  unfold Milestone.ProgressPercentage
  norm_num

/-- C6 (amended): `ProgressPercentage` is always at most 100 (including
progress far exceeding the threshold), returns 0 when the threshold is 0,
and lies in `[0, 100]` whenever progress and threshold are non-negative;
it is not clamped below 0 for negative progress. -/
theorem progressPercentage_bounds (m : Milestone) :
    m.ProgressPercentage ≤ 100 ∧
    (m.threshold = 0 → m.ProgressPercentage = 0) ∧
    (0 ≤ m.progress → 0 ≤ m.threshold →
      0 ≤ m.ProgressPercentage ∧ m.ProgressPercentage ≤ 100) := by
  unfold Milestone.ProgressPercentage
  by_cases h0 : m.threshold = 0
  · simp [h0]
  · rw [if_neg h0]
    dsimp only
    refine ⟨?_, fun h => absurd h h0, ?_⟩
    · split
      · exact le_refl 100
      · next h => exact le_of_not_lt h
    · intro hp ht
      constructor
      · split
        · norm_num
        · apply mul_nonneg
          · apply div_nonneg
            · exact_mod_cast hp
            · exact_mod_cast ht
          · norm_num
      · split
        · exact le_refl 100
        · next h => exact le_of_not_lt h

/-- Witness for C6: a milestone with threshold 2 and progress 5 has a
percentage within `[0, 100]` (in fact clamped to 100). -/
theorem progressPercentage_bounds_witness :
    0 ≤ ({ threshold := 2, progress := 5, achieved := false,
           achievedAt := none } : Milestone).ProgressPercentage ∧
    ({ threshold := 2, progress := 5, achieved := false,
       achievedAt := none } : Milestone).ProgressPercentage ≤ 100 :=
  (progressPercentage_bounds _).2.2 (by norm_num) (by norm_num)

/-- C10: a milestone whose threshold is ≤ 0 is achieved by its very first
`UpdateProgress` call with any non-negative value. -/
theorem zero_threshold_achieved_first_call (T v : Int) (t : Time)
    (hT : T ≤ 0) (hv : 0 ≤ v) :
    ((NewMilestone T).UpdateProgress v t).2 = true ∧
    (((NewMilestone T).UpdateProgress v t).1).achieved = true := by
  have h := UpdateProgress_of_not_achieved (NewMilestone T) v t rfl
  have hle : (NewMilestone T).threshold ≤ v := le_trans hT hv
  rw [decide_eq_true hle] at h
  exact h

/-- Witness for C10: a fresh milestone with threshold 0 returns true from
`UpdateProgress 0` on the first call. -/
theorem zero_threshold_achieved_first_call_witness :
    ((NewMilestone 0).UpdateProgress 0 0).2 = true :=
  (zero_threshold_achieved_first_call 0 0 0 (by decide) (by decide)).1

/-! ## Events (`internal/events`) -/

/-- A payload value (`interface{}` in the Go map): the reaction-extraction
code only distinguishes string values from everything else. -/
inductive JsonVal where
  | str (s : String)
  | other
  deriving Repr, DecidableEq

/-- The event record.  `EventType` and `ReactionType` are Go string types,
embedded as `String`; the payload `map[string]interface{}` is an
association list. -/
structure Event where
  id : String
  type : String
  sessionID : String
  userID : String
  payload : List (String × JsonVal)
  deriving Repr, DecidableEq

/-- `Event.GetReactionType`: for a reaction event whose payload holds a
string under `"reaction_type"`, return it; otherwise report failure
(`none` embeds the Go `("", false)` return). -/
def Event.GetReactionType (e : Event) : Option String :=
  if e.type ≠ "reaction" then none
  else
    match e.payload.lookup "reaction_type" with
    | some (JsonVal.str rt) => some rt
    | _ => none

/-! ## The bounded event queue (`internal/events/queue.go`) -/

/-- The queue: a buffered channel of capacity `size` (the buffer is FIFO,
head dequeued first) plus the `closed` flag. -/
structure Queue where
  buffer : List Event
  size : Nat
  closed : Bool
  deriving Repr, DecidableEq

/-- `NewQueue`: empty buffer of the given capacity, open. -/
def NewQueue (size : Nat) : Queue :=
  { buffer := [], size := size, closed := false }

/-- `Queue.Enqueue`: returns false if closed; otherwise a non-blocking send
that succeeds exactly when the channel buffer has room, and drops the
event (returning false) when it is full. -/
def Queue.Enqueue (q : Queue) (e : Event) : Queue × Bool :=
  if q.closed then (q, false)
  else if q.buffer.length < q.size then
    ({ q with buffer := q.buffer ++ [e] }, true)
  else (q, false)

/-- `Queue.Close`: marks the queue closed (idempotent); buffered events
remain readable. -/
def Queue.Close (q : Queue) : Queue :=
  if q.closed then q else { q with closed := true }

/-- `Queue.Drain`: reads every remaining buffered event in FIFO order
(the `range` over the closed channel), leaving the buffer empty.  The code
requires the queue to be closed first. -/
def Queue.Drain (q : Queue) : List Event × Queue :=
  (q.buffer, { q with buffer := [] })

/-- A sequence of `Enqueue` calls; returns the final queue and the list of
boolean results in call order. -/
def enqueueAll (q : Queue) (es : List Event) : Queue × List Bool :=
  match es with
  | [] => (q, [])
  | e :: rest =>
      let (q', r) := q.Enqueue e
      let (qfin, rs) := enqueueAll q' rest
      (qfin, r :: rs)

lemma Enqueue_size (q : Queue) (e : Event) : ((q.Enqueue e).1).size = q.size := by
  unfold Queue.Enqueue
  split
  · rfl
  · split <;> rfl

lemma Enqueue_closed (q : Queue) (e : Event) :
    ((q.Enqueue e).1).closed = q.closed := by
  unfold Queue.Enqueue
  split
  · rfl
  · split <;> rfl

lemma Enqueue_length_le (q : Queue) (e : Event) (h : q.buffer.length ≤ q.size) :
    ((q.Enqueue e).1).buffer.length ≤ q.size := by
  unfold Queue.Enqueue
  split
  · exact h
  · split
    · next hlt => simpa using hlt
    · exact h

/-- C3: an `Enqueue` on a queue whose buffer is within capacity returns
false exactly when the queue is closed or full, drops the event (leaving
the buffer unchanged) in that case, keeps the buffer within capacity, and
over any sequence of enqueues from a fresh queue of capacity `C` the
buffer length never exceeds `C`. -/
theorem enqueue_respects_capacity :
    (∀ (q : Queue) (e : Event), q.buffer.length ≤ q.size →
      (((q.Enqueue e).2 = false) ↔ (q.closed = true ∨ q.buffer.length = q.size)) ∧
      ((q.Enqueue e).2 = false → ((q.Enqueue e).1).buffer = q.buffer) ∧
      ((q.Enqueue e).1).buffer.length ≤ q.size) ∧
    (∀ (C : Nat) (es : List Event),
      ((enqueueAll (NewQueue C) es).1).buffer.length ≤ C) := by
  constructor
  · intro q e h
    refine ⟨?_, ?_, Enqueue_length_le q e h⟩
    · unfold Queue.Enqueue
      split
      · next hc => simp [hc]
      · next hc =>
          split
          · next hlt => simp [eq_true_of_ne_false, hc]; omega
          · next hge => simp [hc]; omega
    · unfold Queue.Enqueue
      split
      · intro _; rfl
      · split
        · simp
        · intro _; rfl
  · intro C es
    -- strengthen to an invariant over arbitrary starting states
    suffices h : ∀ (q : Queue) (es : List Event), q.buffer.length ≤ q.size →
        ((enqueueAll q es).1).buffer.length ≤ q.size ∧
        ((enqueueAll q es).1).size = q.size by
      exact (h (NewQueue C) es (by simp [NewQueue])).1
    intro q es
    induction es generalizing q with
    | nil => intro h; exact ⟨h, rfl⟩
    | cons e rest ih =>
        intro h
        unfold enqueueAll
        rcases hq : q.Enqueue e with ⟨q', r⟩
        have hsz : q'.size = q.size := by
          have := Enqueue_size q e; rw [hq] at this; exact this
        have hlen : q'.buffer.length ≤ q'.size := by
          have h2 := Enqueue_length_le q e h
          rw [hq] at h2
          dsimp only at h2
          omega
        rcases henq : enqueueAll q' rest with ⟨qfin, rs⟩
        have hih := ih q' hlen
        rw [henq] at hih
        have hih1 : qfin.buffer.length ≤ q'.size := hih.1
        have hih2 : qfin.size = q'.size := hih.2
        simp only [hq, henq]
        exact ⟨by omega, by omega⟩

/-- Witness for C3: a full queue of capacity 1 rejects a further enqueue
and keeps its single buffered event. -/
theorem enqueue_respects_capacity_witness :
    ((({ buffer := [{ id := "e0", type := "reaction", sessionID := "s",
                      userID := "u", payload := [] }],
         size := 1, closed := false } : Queue).Enqueue
      { id := "e1", type := "reaction", sessionID := "s", userID := "u",
        payload := [] }).2 = false) := by
  refine ((enqueue_respects_capacity.1 _ _ (by decide)).1).mpr ?_
  right
  decide

lemma Close_closed (q : Queue) : (q.Close).closed = true := by
  unfold Queue.Close
  split
  · next h => exact h
  · rfl

lemma Close_buffer (q : Queue) : (q.Close).buffer = q.buffer := by
  unfold Queue.Close
  split <;> rfl

lemma Enqueue_of_closed (q : Queue) (e : Event) (h : q.closed = true) :
    q.Enqueue e = (q, false) := by
  unfold Queue.Enqueue
  rw [if_pos h]

lemma enqueueAll_of_closed (q : Queue) (es : List Event) (h : q.closed = true) :
    enqueueAll q es = (q, List.replicate es.length false) := by
  induction es with
  | nil => rfl
  | cons e rest ih =>
      unfold enqueueAll
      rw [Enqueue_of_closed q e h]
      simp only [ih]
      rfl

/-- C4: after `Close()`, any further `Enqueue` attempts all return false
and leave the queue untouched, and `Drain()` then returns exactly the
events that were buffered at close time, in FIFO order (each exactly once,
none enqueued after the close). -/
theorem close_then_drain (q : Queue) (es : List Event) :
    (enqueueAll q.Close es).2 = List.replicate es.length false ∧
    (enqueueAll q.Close es).1 = q.Close ∧
    (((enqueueAll q.Close es).1).Drain).1 = q.buffer := by
  have h := enqueueAll_of_closed q.Close es (Close_closed q)
  rw [h]
  exact ⟨rfl, rfl, Close_buffer q⟩

/-! ## The worker pool (`internal/events/worker.go`) -/

/-- A handler result: the Go `error` return, `Except.error` when non-nil. -/
abbrev HandlerResult := Except String Unit

/-- The worker loop body, applied to the stream of dequeue results the
worker sees before the queue closes: a `nil` event is skipped
(`continue`), every other event is passed to the handler, and a handler
error is logged but never exits the loop.  Returns the events handled,
each paired with its handler result. -/
def workerRun (handler : Event → HandlerResult) :
    List (Option Event) → List (Event × HandlerResult)
  | [] => []
  | none :: rest => workerRun handler rest
  | some e :: rest => (e, handler e) :: workerRun handler rest

/-- The drain loop of `ShutdownWithDrain`: each remaining event is handed
to the handler; an error is logged and the loop continues. -/
def processDrained (handler : Event → HandlerResult) :
    List Event → List (Event × HandlerResult)
  | [] => []
  | e :: rest => (e, handler e) :: processDrained handler rest

/-- `WorkerPool.ShutdownWithDrain`: closes the queue, drains it, then
processes every drained event. -/
def ShutdownWithDrain (q : Queue) (handler : Event → HandlerResult) :
    Queue × List (Event × HandlerResult) :=
  let qc := q.Close
  let (remaining, qd) := qc.Drain
  (qd, processDrained handler remaining)

lemma processDrained_map_fst (handler : Event → HandlerResult) (es : List Event) :
    (processDrained handler es).map Prod.fst = es := by
  induction es with
  | nil => rfl
  | cons e rest ih => simp [processDrained, ih]

/-- C9: handler errors never halt processing.  The worker loop handles
every non-nil dequeued event no matter what the handler returns on earlier
ones, and `ShutdownWithDrain` hands every drained event to the handler
even when handling an earlier drained event produced an error. -/
theorem handler_errors_never_halt (handler : Event → HandlerResult)
    (inputs : List (Option Event)) (q : Queue) :
    ((workerRun handler inputs).map Prod.fst = inputs.filterMap id) ∧
    ((ShutdownWithDrain q handler).2.map Prod.fst = q.buffer) := by
  constructor
  · induction inputs with
    | nil => rfl
    | cons o rest ih =>
        cases o with
        | none => simpa [workerRun] using ih
        | some e => simpa [workerRun] using ih
  · unfold ShutdownWithDrain Queue.Drain
    simpa [processDrained_map_fst] using Close_buffer q

/-! ## Session statistics (`internal/aggregation`) -/

/-- The six reaction types pre-registered as keys of `ReactionCounts` in
`NewSessionStats`; `IncrementReaction`'s `exists` check succeeds exactly
for these. -/
def knownReactionTypes : Finset String :=
  {"like", "love", "cheer", "applause", "fire", "heart"}

/-- Session statistics.  The Go `map[ReactionType]*int64` with its six
fixed keys is embedded as a total function read only at those keys; the
counters are Go `int64` values that are only ever incremented, embedded as
`Nat`.  `unattributed` is a ghost field counting the reactions that bumped
only the total because their type had no per-type bucket (the Go struct
stores these only inside `TotalReactions`). -/
structure SessionStats where
  activeUsers : Finset String
  reactionCounts : String → Nat
  totalReactions : Nat
  unattributed : Nat
  peakConcurrentUsers : Nat

/-- `NewSessionStats`: no users, all counters zero. -/
def NewSessionStats : SessionStats :=
  { activeUsers := ∅, reactionCounts := fun _ => 0, totalReactions := 0,
    unattributed := 0, peakConcurrentUsers := 0 }

/-- `SessionStats.AddUser`: inserts the user, raises the peak if the new
count exceeds it, and returns the current count. -/
def SessionStats.AddUser (s : SessionStats) (userID : String) :
    SessionStats × Nat :=
  let active := insert userID s.activeUsers
  let currentCount := active.card
  let peak :=
    if currentCount > s.peakConcurrentUsers then currentCount
    else s.peakConcurrentUsers
  ({ s with activeUsers := active, peakConcurrentUsers := peak }, currentCount)

/-- `SessionStats.RemoveUser`: deletes the user and returns the remaining
count. -/
def SessionStats.RemoveUser (s : SessionStats) (userID : String) :
    SessionStats × Nat :=
  let active := s.activeUsers.erase userID
  ({ s with activeUsers := active }, active.card)

/-- `SessionStats.IncrementReaction`: if the type has a bucket, increment
both the bucket and the total; otherwise increment only the total (tracked
in the ghost field `unattributed`).  Returns the new total. -/
def SessionStats.IncrementReaction (s : SessionStats) (rt : String) :
    SessionStats × Nat :=
  if rt ∈ knownReactionTypes then
    let s' := { s with
      reactionCounts := Function.update s.reactionCounts rt (s.reactionCounts rt + 1),
      totalReactions := s.totalReactions + 1 }
    (s', s'.totalReactions)
  else
    let s' := { s with
      totalReactions := s.totalReactions + 1,
      unattributed := s.unattributed + 1 }
    (s', s'.totalReactions)

/-- The state invariant of claim C5: the total equals the sum of the
per-type buckets plus the unattributed reactions, and the peak dominates
the current active-user count. -/
def StatsInvariant (s : SessionStats) : Prop :=
  s.totalReactions = (∑ t ∈ knownReactionTypes, s.reactionCounts t) + s.unattributed ∧
  s.activeUsers.card ≤ s.peakConcurrentUsers

instance (s : SessionStats) : Decidable (StatsInvariant s) := by
  unfold StatsInvariant
  infer_instance

lemma sum_update_succ (f : String → Nat) (rt : String)
    (h : rt ∈ knownReactionTypes) :
    (∑ t ∈ knownReactionTypes, Function.update f rt (f rt + 1) t) =
      (∑ t ∈ knownReactionTypes, f t) + 1 := by
  rw [Finset.sum_update_of_mem h, Finset.sdiff_singleton_eq_erase]
  have h2 := Finset.add_sum_erase knownReactionTypes f h
  omega

/-- C5: every `SessionStats` operation preserves the invariant
`total_reactions = Σ per-type + unattributed ∧ peak ≥ |active users|`,
and a fresh `SessionStats` satisfies it. -/
theorem sessionStats_invariant_preserved :
    StatsInvariant NewSessionStats ∧
    (∀ (s : SessionStats) (u : String),
      StatsInvariant s → StatsInvariant (s.AddUser u).1) ∧
    (∀ (s : SessionStats) (u : String),
      StatsInvariant s → StatsInvariant (s.RemoveUser u).1) ∧
    (∀ (s : SessionStats) (rt : String),
      StatsInvariant s → StatsInvariant (s.IncrementReaction rt).1) := by
  refine ⟨?_, ?_, ?_, ?_⟩
  · constructor
    · simp [NewSessionStats]
    · simp [NewSessionStats]
  · intro s u ⟨h1, h2⟩
    unfold SessionStats.AddUser
    dsimp only
    refine ⟨h1, ?_⟩
    split
    · exact le_refl _
    · next h => dsimp only; omega
  · intro s u ⟨h1, h2⟩
    unfold SessionStats.RemoveUser
    dsimp only
    refine ⟨h1, ?_⟩
    calc (s.activeUsers.erase u).card ≤ s.activeUsers.card :=
          Finset.card_le_card (Finset.erase_subset u s.activeUsers)
      _ ≤ s.peakConcurrentUsers := h2
  · intro s rt ⟨h1, h2⟩
    unfold SessionStats.IncrementReaction
    split
    · next h =>
        refine ⟨?_, h2⟩
        dsimp only
        rw [sum_update_succ s.reactionCounts rt h]
        omega
    · next h =>
        refine ⟨?_, h2⟩
        dsimp only
        omega

/-- Witness for C5: the invariant holds after adding a user, removing an
absent user and counting a "like" reaction, starting from fresh stats. -/
theorem sessionStats_invariant_preserved_witness :
    StatsInvariant
      (((((NewSessionStats.AddUser "alice").1).RemoveUser "bob").1).IncrementReaction
        "like").1 :=
  sessionStats_invariant_preserved.2.2.2 _ "like"
    (sessionStats_invariant_preserved.2.2.1 _ "bob"
      (sessionStats_invariant_preserved.2.1 _ "alice"
        sessionStats_invariant_preserved.1))

/-! ## The aggregation manager (`internal/aggregation/manager.go`) -/

/-- The manager's `sessions` map, as an association list. -/
structure Manager where
  sessions : List (String × SessionStats)

/-- Map lookup on the sessions association list. -/
def lookupSession : List (String × SessionStats) → String → Option SessionStats
  | [], _ => none
  | (k, v) :: rest, sid => if k = sid then some v else lookupSession rest sid

/-- Map store: replaces the entry for the key (the Go code mutates the
looked-up `*SessionStats` in place; storing the updated record models
that pointer write). -/
def setSession : List (String × SessionStats) → String → SessionStats →
    List (String × SessionStats)
  | [], sid, s => [(sid, s)]
  | (k, v) :: rest, sid, s =>
      if k = sid then (sid, s) :: rest else (k, v) :: setSession rest sid s

/-- `Manager.GetOrCreateSession`: returns the existing stats, or registers
and returns fresh stats. -/
def Manager.GetOrCreateSession (m : Manager) (sessionID : String) :
    Manager × SessionStats :=
  match lookupSession m.sessions sessionID with
  | some stats => (m, stats)
  | none =>
      ({ sessions := (sessionID, NewSessionStats) :: m.sessions },
        NewSessionStats)

/-- The dispatch switch of `Manager.ProcessEvent` acting on the session's
stats: join adds the user, leave removes it, a reaction increments
counters only when `GetReactionType` succeeds; any other type falls
through. -/
def applyEvent (e : Event) (stats : SessionStats) : SessionStats :=
  if e.type = "join_session" then (stats.AddUser e.userID).1
  else if e.type = "leave_session" then (stats.RemoveUser e.userID).1
  else if e.type = "reaction" then
    match e.GetReactionType with
    | some rt => (stats.IncrementReaction rt).1
    | none => stats
  else stats

/-- `Manager.ProcessEvent`: fetch-or-create the session's stats, apply the
event, store the result. -/
def Manager.ProcessEvent (m : Manager) (e : Event) : Manager :=
  let (m', stats) := m.GetOrCreateSession e.sessionID
  { sessions := setSession m'.sessions e.sessionID (applyEvent e stats) }

/-- Observation: the stats the manager holds for a session (fresh stats
when the session is unknown, matching what `GetOrCreateSession` would
hand out). -/
def Manager.statsOf (m : Manager) (sid : String) : SessionStats :=
  (lookupSession m.sessions sid).getD NewSessionStats

lemma lookup_setSession (l : List (String × SessionStats)) (sid : String)
    (s : SessionStats) : lookupSession (setSession l sid s) sid = some s := by
  induction l with
  | nil => simp [setSession, lookupSession]
  | cons kv rest ih =>
      rcases kv with ⟨k, v⟩
      by_cases h : k = sid
      · simp [setSession, lookupSession, h]
      · simp [setSession, lookupSession, h, ih]

lemma ProcessEvent_statsOf (m : Manager) (e : Event) :
    (m.ProcessEvent e).statsOf e.sessionID =
      applyEvent e (m.GetOrCreateSession e.sessionID).2 := by
  unfold Manager.ProcessEvent Manager.statsOf
  rcases hg : m.GetOrCreateSession e.sessionID with ⟨m', stats⟩
  simp [lookup_setSession]

/-- C2 counterexample: a reaction event with a malformed payload (no
`"reaction_type"` string) increments nothing — processing it in a fresh
manager leaves the session total at 0, not 1 as the claim requires. -/
theorem processEvent_malformed_counterexample :
    ((Manager.ProcessEvent { sessions := [] }
        { id := "e1", type := "reaction", sessionID := "s", userID := "u",
          payload := [] }).statsOf "s").totalReactions = 0 := by
  rfl

/-- C2 (amended): processing a reaction event whose payload carries a
string reaction type increments the running total by one; a recognized
type additionally increments exactly its own bucket, an unrecognized type
leaves every bucket unchanged; and a malformed payload (no string
reaction type) changes the session's stats not at all — in particular it
is never an error (`ProcessEvent` is total). -/
theorem processEvent_reaction_counters (m : Manager) (e : Event)
    (he : e.type = "reaction") :
    (∀ rt, e.GetReactionType = some rt →
      ((m.ProcessEvent e).statsOf e.sessionID).totalReactions =
          ((m.GetOrCreateSession e.sessionID).2).totalReactions + 1 ∧
      (rt ∈ knownReactionTypes →
        ((m.ProcessEvent e).statsOf e.sessionID).reactionCounts rt =
            ((m.GetOrCreateSession e.sessionID).2).reactionCounts rt + 1 ∧
        ∀ t, t ≠ rt →
          ((m.ProcessEvent e).statsOf e.sessionID).reactionCounts t =
              ((m.GetOrCreateSession e.sessionID).2).reactionCounts t) ∧
      (rt ∉ knownReactionTypes →
        ∀ t, ((m.ProcessEvent e).statsOf e.sessionID).reactionCounts t =
            ((m.GetOrCreateSession e.sessionID).2).reactionCounts t)) ∧
    (e.GetReactionType = none →
      (m.ProcessEvent e).statsOf e.sessionID =
        (m.GetOrCreateSession e.sessionID).2) := by
  rw [ProcessEvent_statsOf]
  have hj : ¬(e.type = "join_session") := by rw [he]; decide
  have hl : ¬(e.type = "leave_session") := by rw [he]; decide
  constructor
  · intro rt hrt
    unfold applyEvent
    rw [if_neg hj, if_neg hl, if_pos he, hrt]
    dsimp only
    unfold SessionStats.IncrementReaction
    by_cases hmem : rt ∈ knownReactionTypes
    · rw [if_pos hmem]
      dsimp only
      refine ⟨rfl, fun _ => ⟨?_, ?_⟩, fun hn => absurd hmem hn⟩
      · simp [Function.update]
      · intro t ht
        simp [Function.update, ht]
    · rw [if_neg hmem]
      dsimp only
      exact ⟨rfl, fun hmem2 => absurd hmem2 hmem, fun _ t => rfl⟩
  · intro hnone
    unfold applyEvent
    rw [if_neg hj, if_neg hl, if_pos he, hnone]

/-- Witness for C2: processing a "like" reaction in a fresh manager takes
the session's total from 0 to 1 and the "like" bucket from 0 to 1. -/
theorem processEvent_reaction_counters_witness :
    ((Manager.ProcessEvent { sessions := [] }
        { id := "e1", type := "reaction", sessionID := "s", userID := "u",
          payload := [("reaction_type", JsonVal.str "like")] }).statsOf
        "s").totalReactions =
      ((Manager.GetOrCreateSession { sessions := [] } "s").2).totalReactions + 1 ∧
    ((Manager.ProcessEvent { sessions := [] }
        { id := "e1", type := "reaction", sessionID := "s", userID := "u",
          payload := [("reaction_type", JsonVal.str "like")] }).statsOf
        "s").reactionCounts "like" =
      ((Manager.GetOrCreateSession { sessions := [] } "s").2).reactionCounts "like" + 1 := by
  have h := processEvent_reaction_counters { sessions := [] }
    { id := "e1", type := "reaction", sessionID := "s", userID := "u",
      payload := [("reaction_type", JsonVal.str "like")] } rfl
  have h2 := h.1 "like" rfl
  exact ⟨h2.1, (h2.2.1 (by decide)).1⟩

/-! ## The milestone tracker (`internal/milestones/tracker.go`)

The tracker holds `[]*Milestone` slices: pointers into a heap of milestone
records.  The heap is explicit here (`MilestoneHeap`, addressed by `Nat`
references) so that Go's pointer sharing between the tracker and the
slices its getters return is visible in the model. -/

/-- The heap of milestone records the `*Milestone` pointers refer to. -/
structure MilestoneHeap where
  cells : List Milestone
  deriving Repr, DecidableEq

/-- Dereference a milestone pointer. -/
def readRef (h : MilestoneHeap) (r : Nat) : Milestone :=
  h.cells.getD r (NewMilestone 0)

/-- Write a milestone record through a pointer (a caller mutating a
`*Milestone` it was handed). -/
def writeRef (h : MilestoneHeap) (r : Nat) (m : Milestone) : MilestoneHeap :=
  ⟨h.cells.set r m⟩

/-- The tracker's `milestones` map: sessionID → slice of pointers. -/
structure Tracker where
  milestones : List (String × List Nat)

/-- Map lookup on the tracker's milestones map. -/
def lookupRefs : List (String × List Nat) → String → Option (List Nat)
  | [], _ => none
  | (k, v) :: rest, sid => if k = sid then some v else lookupRefs rest sid

/-- `Tracker.GetSessionMilestones`: nil for an unknown session, otherwise
a copy of the slice — a fresh slice holding the same pointers (Go's
`copy` duplicates the pointer values, not the records). -/
def Tracker.GetSessionMilestones (t : Tracker) (sid : String) : List Nat :=
  match lookupRefs t.milestones sid with
  | none => []
  | some refs => refs.map id

/-- `Tracker.GetAchievedMilestones`: nil for an unknown session, otherwise
the pointers among the session's milestones whose record is achieved —
again the tracker's own pointers, not copies of the records. -/
def Tracker.GetAchievedMilestones (t : Tracker) (h : MilestoneHeap)
    (sid : String) : List Nat :=
  match lookupRefs t.milestones sid with
  | none => []
  | some refs => refs.filter (fun r => (readRef h r).achieved)

/-- The milestone state the tracker owns for a session: its pointers,
dereferenced. -/
def trackerView (t : Tracker) (h : MilestoneHeap) (sid : String) :
    List Milestone :=
  ((lookupRefs t.milestones sid).getD []).map (readRef h)

lemma getD_set_self (l : List Milestone) (r : Nat) (m d : Milestone)
    (hlt : r < l.length) : (l.set r m).getD r d = m := by
  induction l generalizing r with
  | nil => simp at hlt
  | cons a rest ih =>
      cases r with
      | zero => rfl
      | succ k => exact ih k (by simpa using hlt)

/-- C7 counterexample: the getters are not defensive copies.  For a
tracker owning one unachieved milestone, `GetSessionMilestones` hands the
caller the tracker's own pointer (reference 0); the caller marking that
milestone achieved through the pointer changes the milestone state the
tracker owns. -/
theorem milestone_getters_not_defensive_copies :
    ((⟨[("s", [0])]⟩ : Tracker).GetSessionMilestones "s") = [0] ∧
    trackerView ⟨[("s", [0])]⟩
        (writeRef ⟨[NewMilestone 5]⟩ 0 { NewMilestone 5 with achieved := true })
        "s" ≠
      trackerView ⟨[("s", [0])]⟩ ⟨[NewMilestone 5]⟩ "s" := by
  constructor
  · rfl
  · decide

/-- C7 (amended): the getters copy the slice but share its elements.
Every reference `GetSessionMilestones` returns is one of the tracker's own
stored references, the achieved getter returns a sub-multiset of those same
references, and writing a record through a returned reference makes that
record part of the tracker-owned milestone state for the session. -/
theorem milestone_getters_share_elements (t : Tracker) (h : MilestoneHeap)
    (sid : String) (r : Nat) (m' : Milestone)
    (hr : r ∈ t.GetSessionMilestones sid) (hlt : r < h.cells.length) :
    (r ∈ (lookupRefs t.milestones sid).getD []) ∧
    (∀ ra, ra ∈ t.GetAchievedMilestones h sid →
      ra ∈ (lookupRefs t.milestones sid).getD []) ∧
    m' ∈ trackerView t (writeRef h r m') sid := by
  unfold Tracker.GetSessionMilestones at hr
  rcases hlook : lookupRefs t.milestones sid with _ | refs
  · rw [hlook] at hr
    simp at hr
  · rw [hlook] at hr
    simp only [List.map_id] at hr
    refine ⟨by simpa using hr, ?_, ?_⟩
    · intro ra hra
      unfold Tracker.GetAchievedMilestones at hra
      rw [hlook] at hra
      simp only [Option.getD_some]
      exact List.mem_of_mem_filter hra
    · unfold trackerView
      rw [hlook]
      simp only [Option.getD_some]
      have hread : readRef (writeRef h r m') r = m' := by
        unfold readRef writeRef
        exact getD_set_self h.cells r m' (NewMilestone 0) hlt
      exact List.mem_map.mpr ⟨r, hr, hread⟩

/-- Witness for C7 (amended): with one tracked milestone, reference 0 is
returned, and writing an achieved record through it puts that record in
the tracker's view. -/
theorem milestone_getters_share_elements_witness :
    ({ threshold := 5, progress := 5, achieved := true,
       achievedAt := some 0 } : Milestone) ∈
      trackerView ⟨[("s", [0])]⟩
        (writeRef ⟨[NewMilestone 5]⟩ 0
          { threshold := 5, progress := 5, achieved := true,
            achievedAt := some 0 }) "s" :=
  (milestone_getters_share_elements ⟨[("s", [0])]⟩ ⟨[NewMilestone 5]⟩ "s" 0
    { threshold := 5, progress := 5, achieved := true, achievedAt := some 0 }
    (by decide) (by decide)).2.2

/-! ## Configuration (`config/config.go`) -/

/-- The configuration fields `Validate` inspects; the Go `int` counters
are embedded as `Int`. -/
structure Config where
  workerCount : Int
  eventQueueSize : Int
  region : String
  deriving Repr, DecidableEq

/-- `Config.Validate`: rejects a non-positive worker count, then a
non-positive queue size, then an empty AWS region; otherwise accepts
(`none` embeds the Go `nil` error). -/
def Config.Validate (c : Config) : Option String :=
  if c.workerCount ≤ 0 then some "worker count must be positive"
  else if c.eventQueueSize ≤ 0 then some "event queue size must be positive"
  else if c.region = "" then some "AWS region is required"
  else none

/-- C8 counterexample: a configuration with positive worker count and
positive queue size but an empty region does not pass validation, so the
numeric ranges are not the only thing the core validates. -/
theorem validate_region_counterexample :
    ({ workerCount := 1, eventQueueSize := 1, region := "" } : Config).Validate =
      some "AWS region is required" := by
  rfl

/-- C8 (amended): `Validate` reports an error whenever the worker count or
the event queue size is non-positive, and passes exactly the
configurations with positive worker count, positive queue size and a
non-empty AWS region. -/
theorem config_validate_iff (c : Config) :
    c.Validate = none ↔
      (0 < c.workerCount ∧ 0 < c.eventQueueSize ∧ c.region ≠ "") := by
  unfold Config.Validate
  split
  · next h => simp; omega
  · next h =>
      split
      · next h2 => simp; omega
      · next h2 =>
          split
          · next h3 => simp [h3]
          · next h3 => simp [h3]; omega

end LivePulse
